import Mathlib

/-! Shallow embedding of the vim-clap `maple` backend: the batch ranker of
`crates/filter/src/lib.rs` and `src/main.rs`, the command-execution
pipeline of `src/main.rs`, and the grep front end of
`crates/maple_cli/src/cmd/grep.rs`.  Strings that the code manipulates
character by character are modelled as `List Char`; strings used as opaque
tokens stay `String`.  External crates that are not part of this
repository (the fuzzy-match algorithms, `serde_json`, the `printer` and
`icon` crates) enter the model as explicit function parameters. -/

/-- A scored match, `FilterResult` of `crates/filter/src/lib.rs`
(`(SourceItem, i64, Vec<usize>)`).  The score type is kept generic so the
same model also covers the `f64`-scored tuples of
`apply_fuzzy_filter_and_rank` in `src/main.rs`. -/
structure FilterResult (α : Type) where
  item : String
  score : α
  indices : List Nat
deriving DecidableEq

/-- Model of `source.filter(algo, query)` in `sync_run`, and of the `filter_map` over
the scorer in `apply_fuzzy_filter_and_rank`: keep exactly the candidates
on which the scorer returns `Some`, in source order. -/
def filterSource {α : Type} (scorer : String → Option (α × List Nat)) (lines : List String) :
    List (FilterResult α) :=
  lines.filterMap fun l => (scorer l).map fun p => FilterResult.mk l p.1 p.2

/-- Contract of `par_sort_unstable_by` with the comparator
`|(_, v1, _), (_, v2, _)| v2.partial_cmp(&v1).unwrap()`: the output is a
permutation of the input that is sorted by descending score.  The sort is
unstable, so every such permutation is a possible output. -/
def RankedOutput {α : Type} [LinearOrder α] (input output : List (FilterResult α)) : Prop :=
  output.Perm input ∧ output.Sorted (fun a b => b.score ≤ a.score)

/-- The possible results of `sync_run` in `crates/filter/src/lib.rs` (and
of `apply_fuzzy_filter_and_rank` in `src/main.rs`): score every line, drop
the non-matches, sort by descending score. -/
def SyncRunOutput {α : Type} [LinearOrder α] (scorer : String → Option (α × List Nat))
    (lines : List String) (output : List (FilterResult α)) : Prop :=
  RankedOutput (filterSource scorer lines) output

/-- Stable tie-break: for every score, the equal-score candidates appear in
the output in the same order as in the matched input. -/
def TiesInSourceOrder {α : Type} [DecidableEq α] (input output : List (FilterResult α)) : Prop :=
  ∀ s : α, output.filter (fun r => decide (r.score = s)) =
    input.filter (fun r => decide (r.score = s))

/-- Model of `i64::partial_cmp`, which is total: always `Some(self.cmp(other))`. -/
def int64PartialCmp (a b : Int) : Option Ordering := some (compare a b)

/-- The sort comparator of `sync_run` before its `unwrap`:
`|(_, v1, _), (_, v2, _)| v2.partial_cmp(&v1)` on `i64` scores. -/
def rankComparator (r1 r2 : FilterResult Int) : Option Ordering :=
  int64PartialCmp r2.score r1.score

/-- Captured result of running an external command, the parts of
`std::process::Output` that `src/main.rs` consults: the success flag of
the exit status, raw stdout (as characters, `from_utf8_lossy` being the
identity in this model) and the stderr text. -/
structure Output where
  statusSuccess : Bool
  stdout : List Char
  stderr : String
deriving DecidableEq

/-- Model of `cmd_output` in `src/main.rs`: on a non-zero exit with non-empty
stderr it prints `{"error": <stderr>}` and calls `process::exit(1)`
(modelled as `Except.error` carrying the stderr text); otherwise the
captured output is returned unchanged. -/
def cmd_output (out : Output) : Except String Output :=
  if out.statusSuccess = false ∧ out.stderr ≠ "" then Except.error out.stderr
  else Except.ok out

/-- Model of `bytecount::count(cmd_stdout, b'\n')`. -/
def countNewlines (s : List Char) : Nat := s.count '\n'

/-- The Rust `str::split` on a newline: the chunks between newlines, including the
possibly empty chunk after the last newline (so `""` splits to `[""]`). -/
def splitNl : List Char → List (List Char)
  | [] => [[]]
  | c :: rest =>
    if c = '\n' then [] :: splitNl rest
    else
      match splitNl rest with
      | [] => [[c]]
      | p :: ps => (c :: p) :: ps

/-- Model of `trim_trailing` in `src/main.rs`: remove the last line when it is the
empty string or equals `DEFAULT_ICONIZED` (a constant of the `icon` crate
that is not part of this repository, hence a parameter here). -/
def trim_trailing (iconized : List Char) (lines : List (List Char)) : List (List Char) :=
  match lines.getLast? with
  | some last => if last = [] ∨ last = iconized then lines.dropLast else lines
  | none => lines

/-- Model of `truncate_stdout` in `src/main.rs`: split stdout on newlines, take the
top `number` chunks, drop a trailing empty chunk. -/
def truncate_stdout (iconized : List Char) (stdout : List Char) (number : Nat) :
    List (List Char) :=
  trim_trailing iconized ((splitNl stdout).take number)

/-- The tempfile path used by `try_cache`: the `--output` option when
given, otherwise the `tempfile(args)` path (time-stamp based, opaque
here). -/
def tempfile_path (output : Option String) (tempname : String) : String :=
  match output with
  | some o => o
  | none => tempname

/-- Model of `try_cache` in `src/main.rs`: when the threshold is non-zero and the
line total exceeds it, the raw stdout is written to the tempfile path
(the write is modelled by returning `some (path, written content)`);
otherwise nothing is persisted. -/
def try_cache (stdout : List Char) (total : Nat) (tempname : String) (output : Option String)
    (output_threshold : Nat) : List Char × Option (String × List Char) :=
  if output_threshold ≠ 0 ∧ output_threshold < total then
    (stdout, some (tempfile_path output tempname, stdout))
  else (stdout, none)

/-- One emitted result of `Maple::execute_impl`: either the structured
error record of `cmd_output` followed by `exit(1)` (no `lines` output), or
the JSON record `{total, lines}` plus, when present, the tempfile path
with the content written to it. -/
inductive RunResult where
  | errorExit (error : String)
  | emit (total : Nat) (lines : List (List Char)) (tempfile : Option (String × List Char))
deriving DecidableEq

/-- Model of `Maple::execute_impl` in `src/main.rs`.  Here `icon` stands for
`prepend_icon` of the external `icon` crate. -/
def execute_impl (number : Option Nat) (enable_icon : Bool) (icon : List Char → List Char)
    (iconized : List Char) (out : Output) (tempname : String) (output : Option String)
    (output_threshold : Nat) : RunResult :=
  match cmd_output out with
  | Except.error e => RunResult.errorExit e
  | Except.ok o =>
    let total := countNewlines o.stdout
    match number with
    | some n => RunResult.emit total (truncate_stdout iconized o.stdout n) none
    | none =>
      let r := try_cache o.stdout total tempname output output_threshold
      let lines0 := if enable_icon then (splitNl r.1).map icon else splitNl r.1
      RunResult.emit total (trim_trailing iconized lines0) r.2

/-- Output record of the `filter` subcommand of `src/main.rs` when
`--number` is given: `total` taken on the full ranked set, then `lines`
and `indices` from the top `number` entries. -/
structure FilterCmdOutput where
  total : Nat
  lines : List String
  indices : List (List Nat)
deriving DecidableEq

/-- The `Cmd::Filter`/`Some(number)` branch of `Maple::run` in
`src/main.rs`: `total = ranked.len()` before `take(number)`; the loop over
the taken payload builds `lines` (optionally iconized) and `indices`. -/
def filterCmdOutput {α : Type} (ranked : List (FilterResult α)) (number : Nat)
    (enable_icon : Bool) (icon : String → String) : FilterCmdOutput :=
  { total := ranked.length
    lines := (ranked.take number).map (fun r => if enable_icon then icon r.item else r.item)
    indices := (ranked.take number).map (fun r => r.indices) }

/-- The JSON record emitted by `Grep::sync_run` in
`crates/maple_cli/src/cmd/grep.rs`. -/
structure GrepOutput where
  total : Nat
  lines : List String
  indices : List (List Nat)
  truncated_map : List (Nat × String)
deriving DecidableEq

/-- The post-execution part of `Grep::sync_run`
(`crates/maple_cli/src/cmd/grep.rs` lines 144-164): parse every stdout
line as a structured JSON grep line, drop parse failures, unzip into
`lines`/`indices`, take `total` on the parsed set, then width-truncate for
display.  `parse` stands for
`serde_json::from_str::<JsonLine>` composed with `build_grep_line`, and
`trunc` for `printer::truncate_grep_lines`; both live in crates outside
this repository. -/
def grepSyncRun (parse : String → Option (String × List Nat))
    (trunc : List String → List (List Nat) →
      List String × List (List Nat) × List (Nat × String))
    (stdoutLines : List String) : GrepOutput :=
  let pairs := stdoutLines.filterMap parse
  let lines := pairs.map Prod.fst
  let indices := pairs.map Prod.snd
  let total := lines.length
  let t := trunc lines indices
  { total := total, lines := t.1, indices := t.2.1, truncated_map := t.2.2 }

/-- The double-quote character. -/
def quoteChar : Char := Char.ofNat 34

/-- The Rust `str::split_whitespace`: maximal non-empty runs of
non-whitespace characters. -/
def splitWsAux : List Char → List Char → List (List Char)
  | [], acc => [acc.reverse]
  | c :: rest, acc =>
    if c.isWhitespace then acc.reverse :: splitWsAux rest []
    else splitWsAux rest (c :: acc)

/-- Whitespace-separated tokens of a command string, empties removed. -/
def splitWhitespace (s : List Char) : List (List Char) :=
  (splitWsAux s []).filter (fun t => t ≠ [])

/-- The per-token transform inside `prepare_sync_grep_cmd`
(`crates/maple_cli/src/cmd/grep.rs` lines 73-83): a token longer than two
characters that starts with `"` and whose last character
(`chars().nth_back(0).unwrap()`) is `"` loses its first and last
character.  `none` models the panic of the `unwrap` on an empty token,
which the proofs show is unreachable. -/
def stripQuotes (t : List Char) : Option (List Char) :=
  if t.length > 2 then
    if t.head? = some quoteChar then
      match t.getLast? with
      | none => none
      | some c => if c = quoteChar then some ((t.drop 1).dropLast) else some t
    else some t
  else some t

/-- The `--json` argument appended by `prepare_sync_grep_cmd`. -/
def jsonArg : List Char := ("--json").data

/-- Model of `prepare_sync_grep_cmd` in `crates/maple_cli/src/cmd/grep.rs`: split
the command string on whitespace, unquote each token, and chain `--json`
as the final argument.  `none` models a panic. -/
def prepare_sync_grep_cmd_args (cmd_str : List Char) : Option (List (List Char)) :=
  ((splitWhitespace cmd_str).mapM stripQuotes).map (fun ts => ts ++ [jsonArg])

/-- The parsed `Grep` options of `crates/maple_cli/src/cmd/grep.rs`. -/
structure GrepOpts where
  grep_query : String
  grep_cmd : Option String
  glob : Option String
  cmd_dir : Option String
  input : Option String
  sync : Bool
deriving DecidableEq

/-- The source selected by `Grep::dyn_run`: either a file read (an
explicit `--input` tempfile or a cache hit — no process is spawned), or a
shell execution of `RG_EXEC_CMD` in an optional working directory. -/
inductive GrepSource where
  | file (path : String)
  | shellCmd (cmd : String) (cwd : Option String)
deriving DecidableEq

/-- Constant `RG_EXEC_CMD` of `crates/maple_cli/src/cmd/grep.rs` (non-Windows). -/
def RG_EXEC_CMD : String :=
  "rg --column --line-number --no-heading --color=never --smart-case ''"

/-- The source-selection logic of `Grep::dyn_run`
(`crates/maple_cli/src/cmd/grep.rs` lines 196-207).  `cache` models
`cache_exists(&RG_ARGS, dir)`: the rg argument vector is the constant
`RG_ARGS`, so a cache entry is keyed by the working directory alone and
yields the cached file path and its line total. -/
def dyn_run_source (g : GrepOpts) (no_cache : Bool)
    (cache : String → Option (String × Nat)) : GrepSource :=
  match g.input with
  | some tempfile => GrepSource.file tempfile
  | none =>
    match g.cmd_dir with
    | some dir =>
      if no_cache = false then
        match cache dir with
        | some hit => GrepSource.file hit.1
        | none => GrepSource.shellCmd RG_EXEC_CMD (some dir)
      else GrepSource.shellCmd RG_EXEC_CMD (some dir)
    | none => GrepSource.shellCmd RG_EXEC_CMD none

/-- The parsed `RipGrepForerunner` options. -/
structure ForerunnerOpts where
  cmd_dir : Option String
  output_threshold : Nat
deriving DecidableEq

/-- Model of `RipGrepForerunner::should_skip`: skip unless the working directory
(or, when absent, the current directory if it can be read) is a git
repository. -/
def should_skip (f : ForerunnerOpts) (isGitRepo : String → Bool)
    (currentDir : Option String) : Bool :=
  match f.cmd_dir with
  | some dir => !(isGitRepo dir)
  | none =>
    match currentDir with
    | some dir => !(isGitRepo dir)
    | none => false

/-- What `RipGrepForerunner::run` does: answer from the cache (no spawn),
skip, or execute the `rg` command. -/
inductive ForerunnerAction where
  | respondFromCache (path : String) (total : Nat)
  | skip
  | execute (cmd_dir : Option String) (output_threshold : Nat)
deriving DecidableEq

/-- Model of `RipGrepForerunner::run` in `crates/maple_cli/src/cmd/grep.rs` lines
241-285: consult the cache first unless `no_cache`, then the git-repo
skip check, then spawn `rg`. -/
def forerunner_run (f : ForerunnerOpts) (no_cache : Bool)
    (cache : String → Option (String × Nat)) (isGitRepo : String → Bool)
    (currentDir : Option String) : ForerunnerAction :=
  let afterCache : ForerunnerAction :=
    if should_skip f isGitRepo currentDir then ForerunnerAction.skip
    else ForerunnerAction.execute f.cmd_dir f.output_threshold
  if no_cache = false then
    match f.cmd_dir with
    | some dir =>
      match cache dir with
      | some hit => ForerunnerAction.respondFromCache hit.1 hit.2
      | none => afterCache
    | none => afterCache
  else afterCache

/-- The error message of the `context` call in `Grep::sync_run`. -/
def grep_config_error_msg : String := "--grep-cmd is required when --sync is on"

/-- The first step taken by `Grep::run`: a configuration error, a
synchronous spawn with prepared arguments, or the dynamic filter on a
selected source. -/
inductive GrepPlan where
  | configError (msg : String)
  | syncSpawn (args : List (List Char))
  | dynFilter (src : GrepSource)
deriving DecidableEq

/-- The argument-preparation prefix of `Grep::sync_run`
(`crates/maple_cli/src/cmd/grep.rs` lines 116-136, non-Windows): require
`grep_cmd`, prepare the command, push the query and the optional
`-g <glob>` pair.  Errors before any process is spawned. -/
def sync_run_plan (g : GrepOpts) : Except String (List (List Char)) :=
  match g.grep_cmd with
  | none => Except.error grep_config_error_msg
  | some c =>
    match prepare_sync_grep_cmd_args c.data with
    | none => Except.error "panic"
    | some args =>
      let args := args ++ [g.grep_query.data]
      let args :=
        match g.glob with
        | some gl => args ++ [['-', 'g'], gl.data]
        | none => args
      Except.ok args

/-- Model of `Grep::run`: dispatch on the `sync` flag. -/
def grep_run_plan (g : GrepOpts) (no_cache : Bool)
    (cache : String → Option (String × Nat)) : GrepPlan :=
  if g.sync then
    match sync_run_plan g with
    | Except.error m => GrepPlan.configError m
    | Except.ok args => GrepPlan.syncSpawn args
  else GrepPlan.dynFilter (dyn_run_source g no_cache cache)

/-- Concrete scorer exercising the ranking theorems: two matching lines
with distinct scores, one non-matching line. -/
def wScorer : String → Option (Int × List Nat) := fun l =>
  if l = "ab" then some (2, [0, 1]) else if l = "b" then some (1, [0]) else none

/-- Concrete candidate lines for the ranking witnesses. -/
def wLines : List String := ["ab", "b", "zzz"]

/-- The ranked output for `wScorer`/`wLines`. -/
def wRanked : List (FilterResult Int) := [⟨"ab", 2, [0, 1]⟩, ⟨"b", 1, [0]⟩]

/-- Scorer giving two candidates the same score. -/
def xScorer : String → Option (Int × List Nat) := fun l =>
  if l = "a" ∨ l = "b" then some (1, []) else none

/-- The two equal-score candidate lines. -/
def xLines : List String := ["a", "b"]

/-- A sorted permutation whose equal-score entries are swapped relative to
source order. -/
def xOutput : List (FilterResult Int) := [⟨"b", 1, []⟩, ⟨"a", 1, []⟩]

/-- Concrete JSON-line parser stub for the grep witnesses: two parseable
lines, everything else unparseable. -/
def wParse : String → Option (String × List Nat) := fun s =>
  if s = "good1" then some ("g1", [0]) else if s = "good2" then some ("g2", [1]) else none

/-- Concrete width-truncation stub keeping only the first display line. -/
def wTrunc : List String → List (List Nat) →
    List String × List (List Nat) × List (Nat × String) :=
  fun ls ixs => (ls.take 1, ixs.take 1, [])

/-- Concrete grep stdout lines with an unparseable line in the middle. -/
def wStdoutLines : List String := ["good1", "bad", "good2"]

/-- A failed command with diagnostic stderr. -/
def errOut : Output := { statusSuccess := false, stdout := ['o', 'k'], stderr := "no such option" }

/-- A failed command with empty stderr but usable stdout. -/
def quietOut : Output := { statusSuccess := false, stdout := ['a', '\n'], stderr := "" }

/-- A successful command whose output has three lines. -/
def bigOut : Output := { statusSuccess := true, stdout := ("a\nb\nc\n").data, stderr := "" }

/-- A successful command with empty stdout. -/
def emptyOut : Output := { statusSuccess := true, stdout := [], stderr := "" }

/-- A synchronous grep invocation without a command string. -/
def syncNoCmd : GrepOpts :=
  { grep_query := "q", grep_cmd := none, glob := none, cmd_dir := none, input := none,
    sync := true }

/-- A dynamic grep invocation carrying an explicit `--input` tempfile as
well as a working directory. -/
def inputGrep : GrepOpts :=
  { grep_query := "q", grep_cmd := none, glob := none, cmd_dir := some "proj",
    input := some "in.tmp", sync := false }

/-- The same invocation without the `--input` tempfile. -/
def noInputGrep : GrepOpts := { inputGrep with input := none }

/-- A cache holding an entry for the working directory `proj`. -/
def projCache : String → Option (String × Nat) := fun d =>
  if d = "proj" then some ("cached.tmp", 7) else none

/-- A forerunner invocation on the cached directory. -/
def projForerunner : ForerunnerOpts := { cmd_dir := some "proj", output_threshold := 30000 }

/-- Concrete grep command string with one quoted token. -/
def quotedCmd : List Char := ("rg \x22--type=rust\x22 pat").data

theorem filterSource_mem {α : Type} {scorer : String → Option (α × List Nat)}
    {lines : List String} {r : FilterResult α} (h : r ∈ filterSource scorer lines) :
    r.item ∈ lines ∧ scorer r.item = some (r.score, r.indices) := by
  simp only [filterSource, List.mem_filterMap] at h
  obtain ⟨l, hl, hmap⟩ := h
  obtain ⟨p, hp, hr⟩ := Option.map_eq_some'.mp hmap
  subst hr
  exact ⟨hl, by simp [hp]⟩

theorem filterSource_length {α : Type} (scorer : String → Option (α × List Nat))
    (lines : List String) :
    (filterSource scorer lines).length = lines.countP (fun l => (scorer l).isSome) := by
  induction lines with
  | nil => rfl
  | cons l rest ih =>
    simp only [filterSource, List.filterMap_cons, List.countP_cons] at *
    cases hsc : scorer l with
    | none => simpa [hsc] using ih
    | some p => simpa [hsc] using ih

theorem splitNl_ne_nil (s : List Char) : splitNl s ≠ [] := by
  cases s with
  | nil => simp [splitNl]
  | cons c rest =>
    by_cases h : c = '\n'
    · simp [splitNl, h]
    · cases hr : splitNl rest with
      | nil => simp [splitNl, h, hr]
      | cons p ps => simp [splitNl, h, hr]

theorem length_splitNl (s : List Char) : (splitNl s).length = s.count '\n' + 1 := by
  induction s with
  | nil => simp [splitNl]
  | cons c rest ih =>
    by_cases h : c = '\n'
    · subst h
      simp [splitNl, List.count_cons, ih]
    · cases hr : splitNl rest with
      | nil => exact absurd hr (splitNl_ne_nil rest)
      | cons p ps =>
        have hlen : ps.length + 1 = rest.count '\n' + 1 := by
          have := ih
          rw [hr] at this
          simpa using this
        simp [splitNl, h, hr, List.count_cons, Ne.symm h]
        omega

/-- C3: ranking never encounters an undefined score comparison.  The
scores of the filter core are signed 64-bit integers; `partial_cmp` on them is
total, always `Some` of the integer comparison, so the `unwrap` inside the
sort comparator of `sync_run` is unreachable and sorting cannot panic. -/
theorem rank_comparator_never_undefined (r1 r2 : FilterResult Int) :
    ∃ o : Ordering, rankComparator r1 r2 = some o ∧
      (o = Ordering.lt ↔ r2.score < r1.score) ∧
      (o = Ordering.eq ↔ r2.score = r1.score) ∧
      (o = Ordering.gt ↔ r1.score < r2.score) := by
  refine ⟨compare r2.score r1.score, rfl, ?_, ?_, ?_⟩
  · exact compare_lt_iff_lt
  · exact compare_eq_iff_eq
  · exact compare_gt_iff_gt

/-- C1 (amended): every possible output of the batch ranker is sorted by
descending score and consists of exactly the matched candidates, each
carrying its true score and matched indices; the relative order of
equal-score candidates is not specified, because `par_sort_unstable_by`
is an unstable sort. -/
theorem ranked_output_sorted_and_complete {α : Type} [LinearOrder α]
    (scorer : String → Option (α × List Nat)) (lines : List String)
    (output : List (FilterResult α)) (h : SyncRunOutput scorer lines output) :
    output.Sorted (fun a b => b.score ≤ a.score) ∧
    (∀ r ∈ output, r.item ∈ lines ∧ scorer r.item = some (r.score, r.indices)) ∧
    output.length = lines.countP (fun l => (scorer l).isSome) := by
  obtain ⟨hperm, hsort⟩ := h
  refine ⟨hsort, ?_, ?_⟩
  · intro r hr
    exact filterSource_mem (hperm.mem_iff.mp hr)
  · rw [hperm.length_eq, filterSource_length]

theorem ranked_output_sorted_and_complete_witness :
    SyncRunOutput wScorer wLines wRanked ∧
    (wRanked.Sorted (fun a b => b.score ≤ a.score) ∧
      (∀ r ∈ wRanked, r.item ∈ wLines ∧ wScorer r.item = some (r.score, r.indices)) ∧
      wRanked.length = wLines.countP (fun l => (wScorer l).isSome)) := by
  have he : filterSource wScorer wLines = wRanked := by decide
  have h : SyncRunOutput wScorer wLines wRanked := by
    refine ⟨?_, ?_⟩
    · rw [he]
    · decide
  exact ⟨h, ranked_output_sorted_and_complete wScorer wLines wRanked h⟩

/-- C1 counterexample: the contract of the unstable sort admits an output
in which two equal-score candidates appear in reversed source order, so
the claimed stable tie-break does not hold of the code. -/
theorem ranked_output_stability_cex :
    SyncRunOutput xScorer xLines xOutput ∧
    ¬ TiesInSourceOrder (filterSource xScorer xLines) xOutput := by
  constructor
  · refine ⟨?_, ?_⟩
    · have he : filterSource xScorer xLines =
          [FilterResult.mk "a" 1 [], FilterResult.mk "b" 1 []] := by decide
      rw [he]
      exact List.Perm.swap _ _ _
    · decide
  · intro hst
    have h1 := hst 1
    revert h1
    decide

theorem splitNl_getLast_nil_iff (s : List Char) :
    (splitNl s).getLast? = some [] ↔ s = [] ∨ s.getLast? = some '\n' := by
  induction s with
  | nil => simp [splitNl]
  | cons c rest ih =>
    by_cases h : c = '\n'
    · subst h
      cases rest with
      | nil => simp [splitNl]
      | cons d ds =>
        obtain ⟨p, ps, hps⟩ : ∃ p ps, splitNl (d :: ds) = p :: ps := by
          cases hr : splitNl (d :: ds) with
          | nil => exact absurd hr (splitNl_ne_nil _)
          | cons p ps => exact ⟨p, ps, rfl⟩
        have hstep : splitNl ('\n' :: d :: ds) = [] :: splitNl (d :: ds) := rfl
        have hL : (splitNl ('\n' :: d :: ds)).getLast? = (splitNl (d :: ds)).getLast? := by
          rw [hstep, hps, List.getLast?_cons_cons]
        rw [hL, ih]
        simp [List.getLast?_cons_cons]
    · obtain ⟨p, ps, hps⟩ : ∃ p ps, splitNl rest = p :: ps := by
        cases hr : splitNl rest with
        | nil => exact absurd hr (splitNl_ne_nil _)
        | cons p ps => exact ⟨p, ps, rfl⟩
      have hsplit : splitNl (c :: rest) = (c :: p) :: ps := by
        simp [splitNl, h, hps]
      cases hps2 : ps with
      | nil =>
        have hcount : rest.count '\n' = 0 := by
          have hlen := length_splitNl rest
          rw [hps, hps2] at hlen
          simpa using hlen.symm
        rw [hsplit, hps2]
        simp only [List.getLast?_singleton]
        constructor
        · intro hcp
          simp at hcp
        · rintro (h1 | h1)
          · simp at h1
          · exfalso
            cases rest with
            | nil =>
              simp at h1
              exact h h1
            | cons e es =>
              rw [List.getLast?_cons_cons] at h1
              have := List.dropLast_append_getLast? '\n' h1
              rw [← this, List.count_append] at hcount
              simp at hcount
      | cons q qs =>
        have hL : (splitNl (c :: rest)).getLast? = (splitNl rest).getLast? := by
          rw [hsplit, hps, hps2, List.getLast?_cons_cons, List.getLast?_cons_cons]
        cases rest with
        | nil =>
          rw [hps2] at hps
          simp [splitNl] at hps
        | cons e es =>
          rw [hL, ih]
          simp [List.getLast?_cons_cons]

theorem try_cache_fst (stdout : List Char) (total : Nat) (tempname : String)
    (output : Option String) (output_threshold : Nat) :
    (try_cache stdout total tempname output output_threshold).1 = stdout := by
  unfold try_cache
  split <;> rfl

/-- C4: for every external command execution, a non-zero exit with
non-empty stderr is surfaced as a structured error payload carrying the
stderr text, and the process exits non-zero producing no `lines` output;
a non-zero exit with empty stderr instead proceeds, treating the
(possibly empty) stdout as the result set. -/
theorem cmd_output_error_surfacing
    (out : Output) (number : Option Nat) (enable_icon : Bool) (icon : List Char → List Char)
    (iconized : List Char) (tempname : String) (output : Option String)
    (output_threshold : Nat) (hfail : out.statusSuccess = false) :
    (out.stderr ≠ "" →
      execute_impl number enable_icon icon iconized out tempname output output_threshold =
        RunResult.errorExit out.stderr) ∧
    (out.stderr = "" →
      ∃ lines tempfile,
        execute_impl number enable_icon icon iconized out tempname output output_threshold =
          RunResult.emit (countNewlines out.stdout) lines tempfile) := by
  constructor
  · intro hne
    have hco : cmd_output out = Except.error out.stderr := by
      simp [cmd_output, hfail, hne]
    simp [execute_impl, hco]
  · intro he
    have hco : cmd_output out = Except.ok out := by
      simp [cmd_output, he]
    cases number with
    | some n =>
      exact ⟨truncate_stdout iconized out.stdout n, none, by simp [execute_impl, hco]⟩
    | none =>
      refine ⟨trim_trailing iconized
          (if enable_icon then (splitNl out.stdout).map icon else splitNl out.stdout),
        (try_cache out.stdout (countNewlines out.stdout) tempname output output_threshold).2,
        ?_⟩
      simp [execute_impl, hco, try_cache_fst]

theorem cmd_output_error_surfacing_witness :
    errOut.statusSuccess = false ∧
    ((errOut.stderr ≠ "" →
        execute_impl none false id [] errOut "t" none 0 = RunResult.errorExit errOut.stderr) ∧
      (errOut.stderr = "" →
        ∃ lines tempfile,
          execute_impl none false id [] errOut "t" none 0 =
            RunResult.emit (countNewlines errOut.stdout) lines tempfile)) :=
  ⟨rfl, cmd_output_error_surfacing errOut none false id [] "t" none 0 rfl⟩

/-- C7: for the Exec subcommand with no `--number` cap, the emitted record
carries a tempfile exactly when the output threshold is non-zero and the
newline count of stdout strictly exceeds it; in that case the content
written to the tempfile path is the full raw stdout, and otherwise no
tempfile is created and the field is absent. -/
theorem exec_tempfile_threshold
    (out : Output) (enable_icon : Bool) (icon : List Char → List Char) (iconized : List Char)
    (tempname : String) (output : Option String) (output_threshold : Nat)
    (hok : out.statusSuccess = true ∨ out.stderr = "") :
    ∃ lines tempfile,
      execute_impl none enable_icon icon iconized out tempname output output_threshold =
        RunResult.emit (countNewlines out.stdout) lines tempfile ∧
      (tempfile.isSome ↔
        (output_threshold ≠ 0 ∧ output_threshold < countNewlines out.stdout)) ∧
      (∀ p c, tempfile = some (p, c) →
        c = out.stdout ∧ p = tempfile_path output tempname) := by
  have hco : cmd_output out = Except.ok out := by
    rcases hok with h | h <;> simp [cmd_output, h]
  by_cases hthr : output_threshold ≠ 0 ∧ output_threshold < countNewlines out.stdout
  · refine ⟨trim_trailing iconized
        (if enable_icon then (splitNl out.stdout).map icon else splitNl out.stdout),
      some (tempfile_path output tempname, out.stdout), ?_, ?_, ?_⟩
    · simp [execute_impl, hco, try_cache, hthr]
    · simp [hthr]
    · intro p c hpc
      simp only [Option.some.injEq, Prod.mk.injEq] at hpc
      exact ⟨hpc.2.symm, hpc.1.symm⟩
  · refine ⟨trim_trailing iconized
        (if enable_icon then (splitNl out.stdout).map icon else splitNl out.stdout),
      none, ?_, ?_, ?_⟩
    · simp [execute_impl, hco, try_cache, hthr]
    · simp [hthr]
    · intro p c hpc
      simp at hpc

theorem exec_tempfile_threshold_witness :
    (bigOut.statusSuccess = true ∨ bigOut.stderr = "") ∧
    (∃ lines tempfile,
      execute_impl none false id [] bigOut "t" none 2 =
        RunResult.emit (countNewlines bigOut.stdout) lines tempfile ∧
      (tempfile.isSome ↔ ((2 : Nat) ≠ 0 ∧ 2 < countNewlines bigOut.stdout)) ∧
      (∀ p c, tempfile = some (p, c) →
        c = bigOut.stdout ∧ p = tempfile_path none "t")) :=
  ⟨Or.inl rfl, exec_tempfile_threshold bigOut false id [] "t" none 2 (Or.inl rfl)⟩

/-- C9 (amended): for the Exec subcommand with no `--number` cap and icons
disabled, `total` is the newline count of stdout and `lines` is stdout
split on newlines with at most one trailing element removed — removed
exactly when that element is the empty string or the default iconized
placeholder; consequently `total` equals the length of `lines` exactly
when stdout is empty, ends with a newline, or its chunk after the last
newline equals the placeholder; all other elements pass through
unchanged. -/
theorem exec_total_lines_newlines
    (out : Output) (icon : List Char → List Char) (iconized : List Char)
    (tempname : String) (output : Option String) (output_threshold : Nat)
    (hok : out.statusSuccess = true ∨ out.stderr = "") :
    ∃ tempfile,
      execute_impl none false icon iconized out tempname output output_threshold =
        RunResult.emit (countNewlines out.stdout)
          (trim_trailing iconized (splitNl out.stdout)) tempfile ∧
      (splitNl out.stdout).length = countNewlines out.stdout + 1 ∧
      ((splitNl out.stdout).getLast? = some [] ∨ (splitNl out.stdout).getLast? = some iconized →
        trim_trailing iconized (splitNl out.stdout) = (splitNl out.stdout).dropLast) ∧
      (¬ ((splitNl out.stdout).getLast? = some [] ∨
          (splitNl out.stdout).getLast? = some iconized) →
        trim_trailing iconized (splitNl out.stdout) = splitNl out.stdout) ∧
      (countNewlines out.stdout = (trim_trailing iconized (splitNl out.stdout)).length ↔
        (out.stdout = [] ∨ out.stdout.getLast? = some '\n' ∨
          (splitNl out.stdout).getLast? = some iconized)) := by
  have hco : cmd_output out = Except.ok out := by
    rcases hok with h | h <;> simp [cmd_output, h]
  obtain ⟨last, hlast⟩ : ∃ last, (splitNl out.stdout).getLast? = some last := by
    cases hg : (splitNl out.stdout).getLast? with
    | none =>
      rw [List.getLast?_eq_none_iff] at hg
      exact absurd hg (splitNl_ne_nil _)
    | some a => exact ⟨a, rfl⟩
  have hlen := length_splitNl out.stdout
  refine ⟨(try_cache out.stdout (countNewlines out.stdout) tempname output output_threshold).2,
    ?_, hlen, ?_, ?_, ?_⟩
  · simp [execute_impl, hco, try_cache_fst]
  · intro hcond
    rw [trim_trailing, hlast]
    rw [hlast] at hcond
    have : last = [] ∨ last = iconized := by
      rcases hcond with h1 | h1 <;> [left; right] <;> exact Option.some.inj h1
    simp [this]
  · intro hcond
    rw [trim_trailing, hlast]
    have : ¬ (last = [] ∨ last = iconized) := by
      intro h1
      apply hcond
      rcases h1 with h1 | h1 <;> [left; right] <;> rw [hlast, h1]
    simp [this]
  · by_cases hcond : last = [] ∨ last = iconized
    · have hdrop : trim_trailing iconized (splitNl out.stdout) = (splitNl out.stdout).dropLast := by
        rw [trim_trailing, hlast]
        simp [hcond]
      rw [hdrop, List.length_dropLast, hlen]
      simp only [countNewlines, Nat.add_sub_cancel, eq_self_iff_true, true_iff]
      rcases hcond with h1 | h1
      · subst h1
        rcases (splitNl_getLast_nil_iff out.stdout).mp hlast with h2 | h2
        · exact Or.inl h2
        · exact Or.inr (Or.inl h2)
      · subst h1
        exact Or.inr (Or.inr hlast)
    · have hkeep : trim_trailing iconized (splitNl out.stdout) = splitNl out.stdout := by
        rw [trim_trailing, hlast]
        simp [hcond]
      rw [hkeep, hlen]
      simp only [countNewlines]
      constructor
      · intro h1
        omega
      · intro h1
        exfalso
        apply hcond
        rcases h1 with h1 | h1 | h1
        · left
          have := (splitNl_getLast_nil_iff out.stdout).mpr (Or.inl h1)
          rw [hlast] at this
          exact Option.some.inj this
        · left
          have := (splitNl_getLast_nil_iff out.stdout).mpr (Or.inr h1)
          rw [hlast] at this
          exact Option.some.inj this
        · right
          rw [hlast] at h1
          exact Option.some.inj h1

theorem exec_total_lines_newlines_witness :
    (bigOut.statusSuccess = true ∨ bigOut.stderr = "") ∧
    (∃ tempfile,
      execute_impl none false id ['X'] bigOut "t" none 0 =
        RunResult.emit (countNewlines bigOut.stdout)
          (trim_trailing ['X'] (splitNl bigOut.stdout)) tempfile ∧
      (splitNl bigOut.stdout).length = countNewlines bigOut.stdout + 1 ∧
      ((splitNl bigOut.stdout).getLast? = some [] ∨
          (splitNl bigOut.stdout).getLast? = some ['X'] →
        trim_trailing ['X'] (splitNl bigOut.stdout) = (splitNl bigOut.stdout).dropLast) ∧
      (¬ ((splitNl bigOut.stdout).getLast? = some [] ∨
          (splitNl bigOut.stdout).getLast? = some ['X']) →
        trim_trailing ['X'] (splitNl bigOut.stdout) = splitNl bigOut.stdout) ∧
      (countNewlines bigOut.stdout = (trim_trailing ['X'] (splitNl bigOut.stdout)).length ↔
        (bigOut.stdout = [] ∨ bigOut.stdout.getLast? = some '\n' ∨
          (splitNl bigOut.stdout).getLast? = some ['X']))) :=
  ⟨Or.inl rfl, exec_total_lines_newlines bigOut id ['X'] "t" none 0 (Or.inl rfl)⟩

/-- C9 counterexample: with empty stdout the emitted `total` (0) equals
the length of `lines` (the empty list) even though stdout does not end
with a newline, refuting the claimed equivalence "total equals the length
of lines exactly when stdout ends with a newline". -/
theorem exec_total_lines_newlines_cex :
    execute_impl none false id ['X'] emptyOut "t" none 0 = RunResult.emit 0 [] none ∧
    ¬ (emptyOut.stdout.getLast? = some '\n') := by
  constructor
  · rfl
  · decide

theorem length_filterMap_count {β γ : Type} (f : β → Option γ) (l : List β) :
    (l.filterMap f).length = l.countP (fun b => (f b).isSome) := by
  induction l with
  | nil => rfl
  | cons b rest ih =>
    simp only [List.filterMap_cons, List.countP_cons]
    cases hb : f b with
    | none => simpa [hb] using ih
    | some c => simpa [hb] using ih

/-- C2: the reported `total` equals the number of candidates for which the
matcher (in the filter command) or the per-line JSON parse (in sync grep)
returned a non-`None` result, regardless of the requested `--number` cap
and regardless of display truncation: in the filter command `total` is
taken before `take(number)`, and in sync grep before width truncation. -/
theorem reported_total_counts_matches :
    (∀ (α : Type) [LinearOrder α] (scorer : String → Option (α × List Nat))
        (lines : List String) (ranked : List (FilterResult α)) (number : Nat)
        (enable_icon : Bool) (icon : String → String),
      SyncRunOutput scorer lines ranked →
      (filterCmdOutput ranked number enable_icon icon).total =
        lines.countP (fun l => (scorer l).isSome)) ∧
    (∀ (parse : String → Option (String × List Nat))
        (trunc : List String → List (List Nat) →
          List String × List (List Nat) × List (Nat × String))
        (stdoutLines : List String),
      (grepSyncRun parse trunc stdoutLines).total =
        stdoutLines.countP (fun s => (parse s).isSome)) := by
  constructor
  · intro α _ scorer lines ranked number enable_icon icon h
    obtain ⟨hperm, _⟩ := h
    show ranked.length = _
    rw [hperm.length_eq, filterSource_length]
  · intro parse trunc stdoutLines
    show ((stdoutLines.filterMap parse).map Prod.fst).length = _
    rw [List.length_map, length_filterMap_count]

theorem reported_total_counts_matches_witness :
    SyncRunOutput wScorer wLines wRanked ∧
    (filterCmdOutput wRanked 1 false id).total = wLines.countP (fun l => (wScorer l).isSome) ∧
    (grepSyncRun wParse wTrunc wStdoutLines).total =
      wStdoutLines.countP (fun s => (wParse s).isSome) := by
  have he : filterSource wScorer wLines = wRanked := by decide
  have h : SyncRunOutput wScorer wLines wRanked := ⟨by rw [he], by decide⟩
  exact ⟨h, reported_total_counts_matches.1 Int wScorer wLines wRanked 1 false id h,
    reported_total_counts_matches.2 wParse wTrunc wStdoutLines⟩

/-- C8: in synchronous grep, every stdout line that fails to parse as a
structured JSON grep line is silently dropped: it contributes nothing to
`lines`, `indices` or `total` — the emitted record is identical with and
without the line — and the run still succeeds. -/
theorem grep_unparseable_dropped
    (parse : String → Option (String × List Nat))
    (trunc : List String → List (List Nat) →
      List String × List (List Nat) × List (Nat × String))
    (pre post : List String) (l : String) (h : parse l = none) :
    grepSyncRun parse trunc (pre ++ l :: post) = grepSyncRun parse trunc (pre ++ post) := by
  simp [grepSyncRun, List.filterMap_append, List.filterMap_cons, h]

theorem grep_unparseable_dropped_witness :
    wParse "bad" = none ∧
    grepSyncRun wParse wTrunc (["good1"] ++ "bad" :: ["good2"]) =
      grepSyncRun wParse wTrunc (["good1"] ++ ["good2"]) :=
  ⟨by decide, grep_unparseable_dropped wParse wTrunc ["good1"] ["good2"] "bad" (by decide)⟩

/-- C5: running grep with `--sync` set but `--grep-cmd` absent is a
configuration error: `Grep::run` returns the error "--grep-cmd is
required when --sync is on" before any process is spawned, and no result
output is produced. -/
theorem sync_grep_requires_cmd (g : GrepOpts) (no_cache : Bool)
    (cache : String → Option (String × Nat))
    (hs : g.sync = true) (hc : g.grep_cmd = none) :
    grep_run_plan g no_cache cache = GrepPlan.configError grep_config_error_msg := by
  unfold grep_run_plan sync_run_plan
  rw [hs, hc]
  simp

theorem sync_grep_requires_cmd_witness :
    syncNoCmd.sync = true ∧ syncNoCmd.grep_cmd = none ∧
    grep_run_plan syncNoCmd true projCache = GrepPlan.configError grep_config_error_msg :=
  ⟨rfl, rfl, sync_grep_requires_cmd syncNoCmd true projCache rfl rfl⟩

/-- C6 (amended): in dynamic grep, when no explicit `--input` tempfile is
given, the no-cache override is unset, a working directory is given and a
cache entry exists for the rg-args/directory signature, the cached file
is the source and no process is spawned; when the override is set the
cache is never consulted (the selected source does not depend on it) and,
absent an input file, the external command is executed.  In the ripgrep
forerunner, with the override unset a cache hit is answered from cache;
with it set the cache is never consulted and the command is executed
whenever the git-repo check does not skip the job. -/
theorem grep_cache_usage :
    (∀ (g : GrepOpts) (cache : String → Option (String × Nat)) (d p : String) (t : Nat),
      g.input = none → g.cmd_dir = some d → cache d = some (p, t) →
      dyn_run_source g false cache = GrepSource.file p) ∧
    (∀ (g : GrepOpts) (cache cache' : String → Option (String × Nat)),
      dyn_run_source g true cache = dyn_run_source g true cache') ∧
    (∀ (g : GrepOpts) (cache : String → Option (String × Nat)),
      g.input = none →
      dyn_run_source g true cache = GrepSource.shellCmd RG_EXEC_CMD g.cmd_dir) ∧
    (∀ (f : ForerunnerOpts) (cache : String → Option (String × Nat))
        (isGit : String → Bool) (cur : Option String) (d c : String) (t : Nat),
      f.cmd_dir = some d → cache d = some (c, t) →
      forerunner_run f false cache isGit cur = ForerunnerAction.respondFromCache c t) ∧
    (∀ (f : ForerunnerOpts) (cache cache' : String → Option (String × Nat))
        (isGit : String → Bool) (cur : Option String),
      forerunner_run f true cache isGit cur = forerunner_run f true cache' isGit cur) ∧
    (∀ (f : ForerunnerOpts) (cache : String → Option (String × Nat))
        (isGit : String → Bool) (cur : Option String),
      should_skip f isGit cur = false →
      forerunner_run f true cache isGit cur =
        ForerunnerAction.execute f.cmd_dir f.output_threshold) := by
  refine ⟨?_, ?_, ?_, ?_, ?_, ?_⟩
  · intro g cache d p t hi hd hc
    simp [dyn_run_source, hi, hd, hc]
  · intro g cache cache'
    cases hi : g.input with
    | some tf => simp [dyn_run_source, hi]
    | none => cases hd : g.cmd_dir <;> simp [dyn_run_source, hi, hd]
  · intro g cache hi
    cases hd : g.cmd_dir <;> simp [dyn_run_source, hi, hd]
  · intro f cache isGit cur d c t hd hc
    simp [forerunner_run, hd, hc]
  · intro f cache cache' isGit cur
    simp [forerunner_run]
  · intro f cache isGit cur hskip
    simp [forerunner_run, hskip]

theorem grep_cache_usage_witness :
    (noInputGrep.input = none ∧ noInputGrep.cmd_dir = some "proj" ∧
      projCache "proj" = some ("cached.tmp", 7) ∧
      dyn_run_source noInputGrep false projCache = GrepSource.file "cached.tmp") ∧
    (projForerunner.cmd_dir = some "proj" ∧
      forerunner_run projForerunner false projCache (fun _ => true) none =
        ForerunnerAction.respondFromCache "cached.tmp" 7) := by
  constructor
  · exact ⟨rfl, rfl, by decide,
      grep_cache_usage.1 noInputGrep projCache "proj" "cached.tmp" 7 rfl rfl (by decide)⟩
  · exact ⟨rfl, grep_cache_usage.2.2.2.1 projForerunner projCache (fun _ => true) none
      "proj" "cached.tmp" 7 rfl (by decide)⟩

/-- C6 counterexample: with an explicit `--input` tempfile present, the
conditions of the claim hold (no-cache unset, working directory given, cache
entry exists for it) and yet the selected source is the input file, not
the cached file. -/
theorem grep_cache_usage_cex :
    projCache "proj" = some ("cached.tmp", 7) ∧
    dyn_run_source inputGrep false projCache = GrepSource.file "in.tmp" ∧
    dyn_run_source inputGrep false projCache ≠ GrepSource.file "cached.tmp" := by
  refine ⟨by decide, rfl, by decide⟩

theorem stripQuotes_eq (t : List Char) :
    stripQuotes t = some
      (if t.length > 2 ∧ t.head? = some quoteChar ∧ t.getLast? = some quoteChar then
        (t.drop 1).dropLast
      else t) := by
  unfold stripQuotes
  by_cases h1 : t.length > 2
  · by_cases h2 : t.head? = some quoteChar
    · cases hg : t.getLast? with
      | none =>
        exfalso
        rw [List.getLast?_eq_none_iff] at hg
        subst hg
        simp at h1
      | some c =>
        by_cases h3 : c = quoteChar
        · subst h3
          simp [h1, h2, hg]
        · simp [h1, h2, hg, h3]
    · simp [h1, h2]
  · simp [h1]

theorem mapM_stripQuotes (ts : List (List Char)) :
    ts.mapM stripQuotes = some (ts.map (fun t =>
      if t.length > 2 ∧ t.head? = some quoteChar ∧ t.getLast? = some quoteChar then
        (t.drop 1).dropLast
      else t)) := by
  rw [← List.mapM'_eq_mapM]
  induction ts with
  | nil => rfl
  | cons t rest ih =>
    simp [List.mapM'_cons, stripQuotes_eq, ih]

theorem quoted_token_reconstruct (t : List Char)
    (h1 : t.length > 2) (h2 : t.head? = some quoteChar) (h3 : t.getLast? = some quoteChar) :
    t = quoteChar :: ((t.drop 1).dropLast ++ [quoteChar]) := by
  cases t with
  | nil => simp at h2
  | cons a rest =>
    simp only [List.head?_cons, Option.some.injEq] at h2
    subst h2
    cases rest with
    | nil => simp at h1
    | cons b bs =>
      rw [List.getLast?_cons_cons] at h3
      have hrec := List.dropLast_append_getLast? quoteChar h3
      rw [show (quoteChar :: b :: bs).drop 1 = b :: bs from rfl]
      rw [hrec]

/-- C10: for every command string containing at least one whitespace
token, `prepare_sync_grep_cmd` returns — without panicking — the token
list in order, with exactly one surrounding pair of double-quote
characters stripped from each token of length greater than two that both
starts and ends with a double quote, all other tokens unchanged, and
`--json` appended as the final argument. -/
theorem prepare_sync_grep_cmd_spec (cmd_str : List Char)
    (hne : splitWhitespace cmd_str ≠ []) :
    ∃ args, prepare_sync_grep_cmd_args cmd_str = some args ∧
      args ≠ [] ∧
      args.getLast? = some jsonArg ∧
      args.dropLast.length = (splitWhitespace cmd_str).length ∧
      (∀ p ∈ (splitWhitespace cmd_str).zip args.dropLast,
        (p.1.length > 2 ∧ p.1.head? = some quoteChar ∧ p.1.getLast? = some quoteChar →
          p.1 = quoteChar :: (p.2 ++ [quoteChar])) ∧
        (¬ (p.1.length > 2 ∧ p.1.head? = some quoteChar ∧ p.1.getLast? = some quoteChar) →
          p.2 = p.1)) := by
  refine ⟨(splitWhitespace cmd_str).map (fun t =>
      if t.length > 2 ∧ t.head? = some quoteChar ∧ t.getLast? = some quoteChar then
        (t.drop 1).dropLast
      else t) ++ [jsonArg], ?_, by simp, List.getLast?_concat _, ?_, ?_⟩
  · unfold prepare_sync_grep_cmd_args
    rw [mapM_stripQuotes]
    rfl
  · rw [List.dropLast_concat, List.length_map]
  · intro p hp
    rw [List.dropLast_concat] at hp
    have hz := List.zip_map' id (fun t =>
      if t.length > 2 ∧ t.head? = some quoteChar ∧ t.getLast? = some quoteChar then
        (t.drop 1).dropLast
      else t) (splitWhitespace cmd_str)
    simp only [List.map_id] at hz
    rw [hz] at hp
    obtain ⟨t, ht, hpt⟩ := List.mem_map.mp hp
    obtain ⟨p1, p2⟩ := p
    simp only [Prod.mk.injEq, id_eq] at hpt
    obtain ⟨hp1, hp2⟩ := hpt
    subst hp1
    subst hp2
    constructor
    · intro hcond
      rw [if_pos hcond]
      exact quoted_token_reconstruct t hcond.1 hcond.2.1 hcond.2.2
    · intro hcond
      rw [if_neg hcond]

theorem prepare_sync_grep_cmd_spec_witness :
    splitWhitespace quotedCmd ≠ [] ∧
    (∃ args, prepare_sync_grep_cmd_args quotedCmd = some args ∧
      args ≠ [] ∧
      args.getLast? = some jsonArg ∧
      args.dropLast.length = (splitWhitespace quotedCmd).length ∧
      (∀ p ∈ (splitWhitespace quotedCmd).zip args.dropLast,
        (p.1.length > 2 ∧ p.1.head? = some quoteChar ∧ p.1.getLast? = some quoteChar →
          p.1 = quoteChar :: (p.2 ++ [quoteChar])) ∧
        (¬ (p.1.length > 2 ∧ p.1.head? = some quoteChar ∧ p.1.getLast? = some quoteChar) →
          p.2 = p.1))) :=
  ⟨by decide, prepare_sync_grep_cmd_spec quotedCmd (by decide)⟩
